import Mathlib

/-!
Verification development for the `ipi` source-based package build-and-install
pipeline (`ipi/pipelines.py`, `ipi/tools/distlib.py`).

The Python code is shallowly embedded: insertion-ordered dicts become
association lists, external collaborators (registry, fetchers, installed-
version database, metadata extractor) become fields of an explicit
environment record, and exceptions become `Except`.
-/

namespace Ipi

abbrev Name := String

/-- Kinds of source fetch specifications (`ipi.deps.fetchers.Source`). -/
inductive Source
  | git
  | system
  | unknown
deriving DecidableEq

/-- A fetch specification as returned by the registry for a package
(`registry.lookup(name).pkg.fetcher`).  `isSource` models the
`isinstance(fetcherSpec, SourceFetcher)` test in `clonePackagesRepos`. -/
structure SourceFetcher where
  isSource : Bool
  type_ : Source
  repo : String
  subDir : String
deriving DecidableEq

/-- The registry lookup result (`registry.lookup(name).pkg`). -/
structure Pkg where
  name : Name
  fetcher : SourceFetcher
deriving DecidableEq

/-- A value stored in a sub-round stage collection: either an on-disk source
directory (a `Path` in the source) or the literal integer `1` used as a
set-membership marker.  Both are truthy in Python. -/
inductive PVal
  | path (d : String)
  | one
deriving DecidableEq

/-- A requirement (name, optional environment marker, version specifier).
The specifier is embedded as the predicate
`version ↦ bool(list(specifier.filter((version,), prereleases=True)))`. -/
structure Requirement where
  name : Name
  marker : Bool
  specOk : Nat → Bool

/-- Metadata extracted from a fetched source tree. -/
structure Metadata where
  name : Name
  buildDeps : List Requirement
  deps : List Requirement

/-- External collaborators of the resolution core. -/
structure Env where
  registry : Name → Pkg
  installedVersion : Name → Option Nat
  extractMetadata : PVal → Metadata
  unpin : Requirement → Requirement
  canonName : Name → Name

/-! ### Insertion-ordered dictionaries as association lists

Python dicts: `d[k] = v` overwrites in place (keeping the key's position) or
appends a fresh key at the end; `del d[k]` removes the key; `d.update(o)`
folds `d[k] = v` over `o`'s items in order; iteration is in insertion order. -/

def dGet {V : Type} : List (Name × V) → Name → Option V
  | [], _ => none
  | (k, v) :: t, k' => if k = k' then some v else dGet t k'

def dHas {V : Type} (d : List (Name × V)) (k : Name) : Bool :=
  (dGet d k).isSome

def dSet {V : Type} : List (Name × V) → Name → V → List (Name × V)
  | [], k, v => [(k, v)]
  | (k0, v0) :: t, k, v => if k0 = k then (k0, v) :: t else (k0, v0) :: dSet t k v

def dDel {V : Type} : List (Name × V) → Name → List (Name × V)
  | [], _ => []
  | (k0, v0) :: t, k => if k0 = k then t else (k0, v0) :: dDel t k

def dUpdate {V : Type} : List (Name × V) → List (Name × V) → List (Name × V)
  | d, [] => d
  | d, (k, v) :: t => dUpdate (dSet d k v) t

def dKeys {V : Type} (d : List (Name × V)) : List Name :=
  d.map Prod.fst

/-! ### Resolution preferences -/

structure ResolutionPrefs where
  upgrade : Bool
  resolveDeps : Bool
  forceReinstall : Bool
deriving DecidableEq

/-- `ResolutionPrefs.clone`: each `none` argument inherits the field. -/
def ResolutionPrefs.clone (p : ResolutionPrefs)
    (upgrade resolveDeps forceReinstall : Option Bool) : ResolutionPrefs :=
  { upgrade := upgrade.getD p.upgrade
    resolveDeps := resolveDeps.getD p.resolveDeps
    forceReinstall := forceReinstall.getD p.forceReinstall }

/-- A `prefsPatch` dict, as the triple of keyword overrides
(upgrade, resolveDeps, forceReinstall). -/
abbrev PrefsPatch := Option Bool × Option Bool × Option Bool

def ResolutionPrefs.cloneWith (p : ResolutionPrefs) (patch : PrefsPatch) : ResolutionPrefs :=
  p.clone patch.1 patch.2.1 patch.2.2

/-! ### Stages and lanes -/

inductive ResolutionSubRoundPipelineStage
  | notResolved
  | fetched
  | depsResolved
  | built
  | installed
deriving DecidableEq

inductive ResolutionRoundSubRound
  | build
  | pkgs
deriving DecidableEq

/-! ### Sub-round (per-lane state machine) -/

structure ResolutionSubRound where
  idx : ResolutionRoundSubRound
  packageTypeName : String
  depsGetter : ResolutionPrefs → Metadata → List Requirement
  moveToThis : Bool
  prefsPatch : PrefsPatch
  toFetch : List (Name × Nat)
  fetched : List (Name × PVal)
  resolved : List (Name × PVal)
  ignored : List (Name × Pkg)

/-- `bool(subRound)` is `bool(self.toFetch)`. -/
def ResolutionSubRound.toBool (s : ResolutionSubRound) : Bool :=
  !s.toFetch.isEmpty

/-- Modelled from the spec: the fetcher registry `fetchers` of module
`ipi.deps.fetchers`, which is not among the sources.  Per the spec only the
version-control source kind has a registered fetcher; a "system" kind
deliberately has none (such names are assumed system-provided), and unknown
kinds have none either. -/
def fetchersHave : Source → Bool
  | Source.git => true
  | Source.system => false
  | Source.unknown => false

/-- The loop body of `clonePackagesRepos`, accumulating the result map `res`
and the `ignored` list. -/
def clonePackagesReposGo (env : Env) (targetDir : String) :
    List Name → List (Name × PVal) → List Pkg → List (Name × PVal) × List Pkg
  | [], res, ignored => (res, ignored)
  | name :: rest, res, ignored =>
    let outDir := targetDir ++ "/" ++ name
    let lookupRes := env.registry name
    let fetcherSpec := lookupRes.fetcher
    if fetcherSpec.isSource then
      if fetchersHave fetcherSpec.type_ then
        -- the external fetcher is invoked here; it materializes `outDir`
        let outDir2 := if fetcherSpec.subDir ≠ "" then outDir ++ "/" ++ fetcherSpec.subDir else outDir
        clonePackagesReposGo env targetDir rest (dSet res name (PVal.path outDir2)) ignored
      else
        clonePackagesReposGo env targetDir rest res (ignored ++ [lookupRes])
    else
      clonePackagesReposGo env targetDir rest res (ignored ++ [lookupRes])

def clonePackagesRepos (env : Env) (targetDir : String) (packagesToClone : List Name) :
    List (Name × PVal) × List Pkg :=
  clonePackagesReposGo env targetDir packagesToClone [] []

inductive PipelineError
  | notImplemented
  | keyError (n : Name)
  | outOfFuel
deriving DecidableEq

/-- `ResolutionSubRound.fetch`.  The `installDirs` argument is taken (as in
the source) but not used by the body.  Raising `NotImplementedError` for an
ignored package whose kind is not the "system" kind happens before any state
is updated, so the error case leaves the sub-round unchanged. -/
def ResolutionSubRound.fetch (s : ResolutionSubRound) (env : Env)
    (_installDirs : List (Name × PVal)) (sourcesDir : String) :
    Except PipelineError ResolutionSubRound :=
  let pr := clonePackagesRepos env sourcesDir (dKeys s.toFetch)
  let buildDepsInstallDirs := pr.1
  let ignored := pr.2
  if ignored.any (fun p => decide (p.fetcher.type_ ≠ Source.system)) then
    Except.error PipelineError.notImplemented
  else
    let ignoredNames := dUpdate [] (ignored.map (fun el => (el.name, el)))
    Except.ok { s with
      fetched := dUpdate s.fetched buildDepsInstallDirs
      toFetch := []
      ignored := dUpdate s.ignored ignoredNames }

/-- `isReInstallationNeeded`.  `install.getInstalledPackageVersion` is the
external installed-version query; a returned version object is truthy. -/
def ResolutionSubRound.isReInstallationNeeded (_s : ResolutionSubRound) (env : Env)
    (el : Requirement) (prefs : ResolutionPrefs) : Bool :=
  if el.marker then
    false
  else
    match env.installedVersion el.name with
    | some version =>
      if !prefs.upgrade then
        if prefs.forceReinstall then
          true
        else
          if el.specOk version then false else true
      else
        true
    | none => true

/-- `isAlreadyBeingProcessed`: `_STAGE_TO_COLLECTION` is iterated in
insertion order (`fetched`, then `depsResolved`); the first collection that
contains a truthy value for the name gives the stage. -/
def ResolutionSubRound.isAlreadyBeingProcessed (s : ResolutionSubRound) (el : Name) :
    ResolutionSubRoundPipelineStage :=
  if dHas s.fetched el then ResolutionSubRoundPipelineStage.fetched
  else if dHas s.resolved el then ResolutionSubRoundPipelineStage.depsResolved
  else ResolutionSubRoundPipelineStage.notResolved

/-- `stageToCollection`, read direction.  `_STAGE_TO_COLLECTION` has entries
only for the `fetched` and `depsResolved` stages (any other stage is a
`KeyError` in the source and is unreachable from the call sites). -/
def ResolutionSubRound.stageToCollection (s : ResolutionSubRound)
    (stage : ResolutionSubRoundPipelineStage) : List (Name × PVal) :=
  match stage with
  | ResolutionSubRoundPipelineStage.fetched => s.fetched
  | ResolutionSubRoundPipelineStage.depsResolved => s.resolved
  | _ => []

/-- `stageToCollection`, write direction: writing back the collection that
`stageToCollection` aliases. -/
def ResolutionSubRound.stageToCollectionSet (s : ResolutionSubRound)
    (stage : ResolutionSubRoundPipelineStage) (c : List (Name × PVal)) : ResolutionSubRound :=
  match stage with
  | ResolutionSubRoundPipelineStage.fetched => { s with fetched := c }
  | ResolutionSubRoundPipelineStage.depsResolved => { s with resolved := c }
  | _ => s

/-- One iteration of the `for el in srcList` loop of `appendNewDeps`.

State threading mirrors the in-place mutation of the source: `self` is only
read (it is returned unchanged), the single element of `otherSubRounds` and
`successor` are returned updated.

Two control-flow facts of the source are preserved exactly:
* in the `moveToThis` branch, both `otherRoundCollection` and
  `thisRoundCollection` are obtained from
  `otherSubRound.stageToCollection(otherRoundStage)`, i.e. they alias the
  same dict of the *other* lane; the `thisRoundCollection[el] = 1`
  assignment followed by `del otherRoundCollection[el]` therefore acts on
  one dict of the other lane (net effect: the key is removed there, and
  nothing is inserted into `self`'s collections);
* the `continue` statements inside the `for otherSubRound` loop only end an
  iteration of that inner loop, so the trailing current-round check and the
  `successor.toFetch[el] = 1` insertion run regardless of the inner loop's
  outcome. -/
def ResolutionSubRound.appendNewDepsStep (self : ResolutionSubRound) (env : Env)
    (prefs : ResolutionPrefs) (other succ : ResolutionSubRound) (el : Requirement) :
    ResolutionSubRound × ResolutionSubRound × ResolutionSubRound :=
  if dHas self.ignored el.name then
    (self, other, succ)
  else if !(self.isReInstallationNeeded env el prefs) then
    (self, other, succ)
  else
    let n := el.name
    let otherRoundStage := other.isAlreadyBeingProcessed n
    let other :=
      if otherRoundStage ≠ ResolutionSubRoundPipelineStage.notResolved then
        if self.moveToThis then
          let otherRoundCollection := other.stageToCollection otherRoundStage
          other.stageToCollectionSet otherRoundStage
            (dDel (dSet otherRoundCollection n PVal.one) n)
        else
          other
      else
        other
    let currentRoundStage := self.isAlreadyBeingProcessed n
    if currentRoundStage ≠ ResolutionSubRoundPipelineStage.notResolved then
      (self, other, succ)
    else
      (self, other, { succ with toFetch := dSet succ.toFetch n 1 })

/-- `appendNewDeps(self, prefs, srcList, otherSubRounds, successor)` with
`otherSubRounds = [other]` (a round always passes exactly the one other
lane). -/
def ResolutionSubRound.appendNewDeps (self : ResolutionSubRound) (env : Env)
    (prefs : ResolutionPrefs) (srcList : List Requirement)
    (other succ : ResolutionSubRound) :
    ResolutionSubRound × ResolutionSubRound × ResolutionSubRound :=
  srcList.foldl
    (fun st el => ResolutionSubRound.appendNewDepsStep st.1 env prefs st.2.1 st.2.2 el)
    (self, other, succ)

/-! ### Round (two-lane orchestrator) -/

structure ResolutionRound where
  build : ResolutionSubRound
  pkgs : ResolutionSubRound

def buildDepsGetter : ResolutionPrefs → Metadata → List Requirement :=
  fun _prefs md => md.buildDeps

/-- `md.deps if prefs.resolveDeps and md.deps else ()`. -/
def pkgsDepsGetter : ResolutionPrefs → Metadata → List Requirement :=
  fun prefs md => if prefs.resolveDeps && !md.deps.isEmpty then md.deps else []

/-- `ResolutionRound.__init__`.  Note that the source passes
`ResolutionRoundSubRound.build` as the `idx` of *both* lanes; the field is
never read afterwards. -/
def ResolutionRound.new : ResolutionRound :=
  { build :=
      { idx := ResolutionRoundSubRound.build
        packageTypeName := "build tool"
        depsGetter := buildDepsGetter
        moveToThis := true
        prefsPatch := (none, none, some false)
        toFetch := []
        fetched := []
        resolved := []
        ignored := [] }
    pkgs :=
      { idx := ResolutionRoundSubRound.build
        packageTypeName := "package"
        depsGetter := pkgsDepsGetter
        moveToThis := false
        prefsPatch := (none, none, none)
        toFetch := []
        fetched := []
        resolved := []
        ignored := [] } }

/-- `bool(round)`. -/
def ResolutionRound.toBool (r : ResolutionRound) : Bool :=
  r.build.toBool || r.pkgs.toBool

/-- The mutable state threaded through `_resolveDeps` while one lane
(`thisSubRound`) is being processed: the other lane of the current round and
the two lanes of the successor round. -/
structure ResolveState where
  thisSubRound : ResolutionSubRound
  otherSub : ResolutionSubRound
  succBuild : ResolutionSubRound
  succPkgs : ResolutionSubRound

/-- The body of `for name, installDir in thisSubRound.fetched.items()`.

`dg1`/`patch1` and `dg2`/`patch2` are the `depsGetter` and `prefsPatch` of
the current round's build lane and package lane respectively — the
immutable data read through `subroundSuccessorPrefs`, whose generator always
yields the pair for the build lane first and the package lane second
(dict insertion order).

The final line models
`successorSubRound.resolved.update(thisSubRound.resolved)`: in the source
this statement sits *outside* the generator loop but *inside* the per-name
loop, so `successorSubRound` is the stale binding left by the last generator
item — always the successor's *package* lane, whichever lane
`thisSubRound` is.  (It cannot be unbound: a name in `fetched` is never in
`ignored`, `fetch` puts each pending name in exactly one of the two.) -/
def resolveOneName (env : Env) (prefs : ResolutionPrefs)
    (dg1 : ResolutionPrefs → Metadata → List Requirement) (patch1 : PrefsPatch)
    (dg2 : ResolutionPrefs → Metadata → List Requirement) (patch2 : PrefsPatch)
    (st : ResolveState) (nameDir : Name × PVal) : ResolveState :=
  let name := nameDir.1
  let installDir := nameDir.2
  let st :=
    if !(dHas st.thisSubRound.ignored name) then
      let md := env.extractMetadata installDir
      -- generator item 1: (build lane, successor.build, prefs.clone(**build.prefsPatch))
      let deps1 := (dg1 prefs md).map env.unpin
      let prefs1 := prefs.cloneWith patch1
      let r1 := st.thisSubRound.appendNewDeps env prefs1 deps1 st.otherSub st.succBuild
      let this1 := { r1.1 with resolved := dSet r1.1.resolved name installDir }
      -- generator item 2: (package lane, successor.pkgs, prefs.clone(**pkgs.prefsPatch))
      let deps2 := (dg2 prefs md).map env.unpin
      let prefs2 := prefs.cloneWith patch2
      let r2 := this1.appendNewDeps env prefs2 deps2 r1.2.1 st.succPkgs
      let this2 := { r2.1 with resolved := dSet r2.1.resolved name installDir }
      { thisSubRound := this2, otherSub := r2.2.1, succBuild := r1.2.2, succPkgs := r2.2.2 }
    else
      st
  { st with succPkgs :=
      { st.succPkgs with resolved := dUpdate st.succPkgs.resolved st.thisSubRound.resolved } }

/-- Processing of one lane by `_resolveDeps`: iterate over the lane's
`fetched` items.  (The lane's own `fetched` dict is never mutated while it
is being iterated: deletions only ever hit the *other* lane.) -/
def resolveLane (env : Env) (prefs : ResolutionPrefs)
    (dg1 : ResolutionPrefs → Metadata → List Requirement) (patch1 : PrefsPatch)
    (dg2 : ResolutionPrefs → Metadata → List Requirement) (patch2 : PrefsPatch)
    (st : ResolveState) : ResolveState :=
  st.thisSubRound.fetched.foldl (resolveOneName env prefs dg1 patch1 dg2 patch2) st

/-- `_resolveDeps`: `thisOtherSubRounds` yields the build lane (with the
package lane as the other), then the package lane (with the build lane as
the other).  Returns the mutated current round and the mutated successor. -/
def ResolutionRound.resolveDeps (r : ResolutionRound) (env : Env)
    (prefs : ResolutionPrefs) (successor : ResolutionRound) :
    ResolutionRound × ResolutionRound :=
  let dgB := r.build.depsGetter
  let paB := r.build.prefsPatch
  let dgP := r.pkgs.depsGetter
  let paP := r.pkgs.prefsPatch
  let st1 : ResolveState :=
    { thisSubRound := r.build, otherSub := r.pkgs
      succBuild := successor.build, succPkgs := successor.pkgs }
  let st1' := resolveLane env prefs dgB paB dgP paP st1
  let st2 : ResolveState :=
    { thisSubRound := st1'.otherSub, otherSub := st1'.thisSubRound
      succBuild := st1'.succBuild, succPkgs := st1'.succPkgs }
  let st2' := resolveLane env prefs dgB paB dgP paP st2
  ({ build := st2'.otherSub, pkgs := st2'.thisSubRound },
   { build := st2'.succBuild, pkgs := st2'.succPkgs })

/-- `ResolutionRound.__call__`: fetch both lanes (build first), resolve
dependencies into a fresh successor round, then merge both lanes' `fetched`
into the shared `installDirs`.  Returns the mutated current round, the
successor round, and the updated `installDirs`. -/
def ResolutionRound.call (r : ResolutionRound) (env : Env) (prefs : ResolutionPrefs)
    (installDirs : List (Name × PVal)) (sourcesDir : String) :
    Except PipelineError (ResolutionRound × ResolutionRound × List (Name × PVal)) :=
  let nextRound := ResolutionRound.new
  match r.build.fetch env installDirs sourcesDir with
  | Except.error e => Except.error e
  | Except.ok build1 =>
    match r.pkgs.fetch env installDirs sourcesDir with
    | Except.error e => Except.error e
    | Except.ok pkgs1 =>
      let r1 : ResolutionRound := { build := build1, pkgs := pkgs1 }
      let pr := r1.resolveDeps env prefs nextRound
      let installDirs1 := dUpdate installDirs pr.1.build.fetched
      let installDirs2 := dUpdate installDirs1 pr.1.pkgs.fetched
      Except.ok (pr.1, pr.2, installDirs2)

/-! ### Building and installing the converged result -/

/-- The loop `for t in self.resolved: buildAndInstallWheel(installDirs[t])`.
`installDirs[t]` is a plain subscript: a missing key raises `KeyError`.
Returns the list of source directories passed to the external
build-and-install collaborator, in iteration order. -/
def lookupDirs (installDirs : List (Name × PVal)) :
    List Name → Except PipelineError (List PVal)
  | [] => Except.ok []
  | t :: rest =>
    match dGet installDirs t with
    | none => Except.error (PipelineError.keyError t)
    | some d =>
      match lookupDirs installDirs rest with
      | Except.error e => Except.error e
      | Except.ok ds => Except.ok (d :: ds)

def ResolutionSubRound.buildAndInstallWheel (s : ResolutionSubRound)
    (installDirs : List (Name × PVal)) : Except PipelineError (List PVal) :=
  lookupDirs installDirs (dKeys s.resolved)

/-- `ResolutionRound.buildAndInstallWheel`: build-tool lane fully first,
then the package lane. -/
def ResolutionRound.buildAndInstallWheel (r : ResolutionRound)
    (installDirs : List (Name × PVal)) : Except PipelineError (List PVal) :=
  match r.build.buildAndInstallWheel installDirs with
  | Except.error e => Except.error e
  | Except.ok b =>
    match r.pkgs.buildAndInstallWheel installDirs with
    | Except.error e => Except.error e
    | Except.ok p => Except.ok (b ++ p)

/-! ### Installer (top-level driver) -/

/-- The `while rr:` convergence loop of
`downloadPackagesAndTheirDependencies`, with fuel for termination.  Each
iteration passes `prefs.clone(upgrade=False)` to the round, exactly as the
source does. -/
def downloadLoop (env : Env) (prefs : ResolutionPrefs) (sourcesDir : String) :
    Nat → ResolutionRound → List (Name × PVal) →
    Except PipelineError (ResolutionRound × List (Name × PVal))
  | 0, rr, installDirs =>
    if rr.toBool then Except.error PipelineError.outOfFuel
    else Except.ok (rr, installDirs)
  | fuel + 1, rr, installDirs =>
    if rr.toBool then
      match rr.call env (prefs.clone (some false) none none) installDirs sourcesDir with
      | Except.error e => Except.error e
      | Except.ok res => downloadLoop env prefs sourcesDir fuel res.2.1 res.2.2
    else
      Except.ok (rr, installDirs)

/-- `downloadPackagesAndTheirDependencies`: seed a fresh round's package
lane with the canonicalized requested names, run the convergence loop, then
build and install the final round's resolved sets.  Returns the final
round, the accumulated `installDirs` and the list of directories handed to
the external build-and-install collaborator. -/
def downloadPackagesAndTheirDependencies (env : Env) (fuel : Nat)
    (prefs : ResolutionPrefs) (names : List Name) (sourcesDir : String) :
    Except PipelineError (ResolutionRound × List (Name × PVal) × List PVal) :=
  let rr0 := ResolutionRound.new
  let seed := dUpdate [] (names.map (fun el => (env.canonName el, 1)))
  let rr1 := { rr0 with pkgs := { rr0.pkgs with toFetch := dUpdate rr0.pkgs.toFetch seed } }
  match downloadLoop env prefs sourcesDir fuel rr1 [] with
  | Except.error e => Except.error e
  | Except.ok fin =>
    match fin.1.buildAndInstallWheel fin.2 with
    | Except.error e => Except.error e
    | Except.ok installed => Except.ok (fin.1, fin.2, installed)

/-- `PackagesInstaller.__call__`: reset, create the scratch source
directory, download (which may raise), then `self.sourcesDir.cleanup()`.
There is no `try`/`finally` in the source: the cleanup line is reached only
when `downloadPackagesAndTheirDependencies` returns normally.  The boolean
of the returned pair records whether the cleanup call ran. -/
def installerCall (env : Env) (fuel : Nat) (prefs : ResolutionPrefs)
    (names : List Name) (sourcesDirName : String) :
    Except PipelineError (ResolutionRound × List (Name × PVal) × List PVal) × Bool :=
  match downloadPackagesAndTheirDependencies env fuel prefs names sourcesDirName with
  | Except.ok res => (Except.ok res, true)
  | Except.error e => (Except.error e, false)

/-! ### Helpers for stating concrete executions -/

def exceptIsOk {α β : Type} : Except α β → Bool
  | Except.ok _ => true
  | Except.error _ => false

/-- Project the success value of a round call (inert default on error; every
use is paired with an `exceptIsOk` fact). -/
def runRoundOK (x : Except PipelineError (ResolutionRound × ResolutionRound × List (Name × PVal))) :
    ResolutionRound × ResolutionRound × List (Name × PVal) :=
  match x with
  | Except.ok y => y
  | Except.error _ => (ResolutionRound.new, ResolutionRound.new, [])

/-- Project the success value of a full download run. -/
def dlInstalled (x : Except PipelineError (ResolutionRound × List (Name × PVal) × List PVal)) :
    List PVal :=
  match x with
  | Except.ok y => y.2.2
  | Except.error _ => []

/-- A requirement with no marker and a never-satisfied specifier. -/
def reqOf (n : Name) : Requirement :=
  { name := n, marker := false, specOk := fun _ => false }

/-- A fetch specification with an available (version-control) fetcher. -/
def gitSpec : SourceFetcher :=
  { isSource := true, type_ := Source.git, repo := "r", subDir := "" }

def prefs0 : ResolutionPrefs :=
  { upgrade := false, resolveDeps := true, forceReinstall := false }

/-- The round seeded the way `downloadPackagesAndTheirDependencies` seeds
its first round. -/
def seedRound (names : List Name) : ResolutionRound :=
  let rr0 := ResolutionRound.new
  { rr0 with pkgs :=
      { rr0.pkgs with toFetch := dUpdate rr0.pkgs.toFetch (names.map (fun n => (n, 1))) } }

/-! ### Concrete scenario: dual discovery (build dependency of one package,
already fetched/resolved via the package lane) -/

/-- Registry where every name is fetchable; dependency graph:
`A` has build dependency `T`, `T` has build dependency `B`, `B` has none. -/
def envATB : Env :=
  { registry := fun n => { name := n, fetcher := gitSpec }
    installedVersion := fun _ => none
    extractMetadata := fun d =>
      if d = PVal.path "src/A" then { name := "A", buildDeps := [reqOf "T"], deps := [] }
      else if d = PVal.path "src/T" then { name := "T", buildDeps := [reqOf "B"], deps := [] }
      else { name := "B", buildDeps := [], deps := [] }
    unpin := id
    canonName := id }

def c3r1 : ResolutionRound := seedRound ["A", "B"]

def c3e1 : Except PipelineError (ResolutionRound × ResolutionRound × List (Name × PVal)) :=
  c3r1.call envATB prefs0 [] "src"

def c3s1 : ResolutionRound × ResolutionRound × List (Name × PVal) := runRoundOK c3e1

def c3e2 : Except PipelineError (ResolutionRound × ResolutionRound × List (Name × PVal)) :=
  c3s1.2.1.call envATB prefs0 c3s1.2.2 "src"

def c3s2 : ResolutionRound × ResolutionRound × List (Name × PVal) := runRoundOK c3e2

def c3e3 : Except PipelineError (ResolutionRound × ResolutionRound × List (Name × PVal)) :=
  c3s2.2.1.call envATB prefs0 c3s2.2.2 "src"

def c3s3 : ResolutionRound × ResolutionRound × List (Name × PVal) := runRoundOK c3e3

def c3run : Except PipelineError (ResolutionRound × List (Name × PVal) × List PVal) :=
  downloadPackagesAndTheirDependencies envATB 5 prefs0 ["A", "B"] "src"

/-! ### Concrete scenario for round-level propagation: one build-lane
package `t` with no dependencies -/

def envT : Env :=
  { registry := fun n => { name := n, fetcher := gitSpec }
    installedVersion := fun _ => none
    extractMetadata := fun _ => { name := "t", buildDeps := [], deps := [] }
    unpin := id
    canonName := id }

def c2r : ResolutionRound :=
  let rr0 := ResolutionRound.new
  { rr0 with build := { rr0.build with toFetch := [("t", 1)] } }

def c2e : Except PipelineError (ResolutionRound × ResolutionRound × List (Name × PVal)) :=
  c2r.call envT prefs0 [] "src"

def c2s : ResolutionRound × ResolutionRound × List (Name × PVal) := runRoundOK c2e

/-! ### Concrete scenario for `appendNewDeps` promotion: the build lane
discovers `x` while the package lane has `x` at stage Fetched -/

def envX : Env :=
  { registry := fun n => { name := n, fetcher := gitSpec }
    installedVersion := fun _ => none
    extractMetadata := fun _ => { name := "x", buildDeps := [], deps := [] }
    unpin := id
    canonName := id }

def c1buildLane : ResolutionSubRound := (ResolutionRound.new).build

def c1pkgsLane : ResolutionSubRound :=
  { (ResolutionRound.new).pkgs with fetched := [("x", PVal.path "src/x")] }

def c1res : ResolutionSubRound × ResolutionSubRound × ResolutionSubRound :=
  c1buildLane.appendNewDeps envX prefs0 [reqOf "x"] c1pkgsLane (ResolutionRound.new).build

/-! ### Concrete scenario for the installer's error path: a package whose
fetch specification has an unknown, non-system kind -/

def envUnknown : Env :=
  { registry := fun n =>
      { name := n
        fetcher := { isSource := true, type_ := Source.unknown, repo := "r", subDir := "" } }
    installedVersion := fun _ => none
    extractMetadata := fun _ => { name := "A", buildDeps := [], deps := [] }
    unpin := id
    canonName := id }

/-! ### Spec restatement of the reinstall decision -/

/-- The reinstall decision exactly as the specification words it: a marker
means "never process"; nothing installed means reinstall; with something
installed, `upgrade` forces reinstall, otherwise `forceReinstall` forces it,
otherwise a satisfying installed version skips and a non-satisfying one
reinstalls. -/
def isReInstallationNeededSpec (env : Env) (el : Requirement)
    (prefs : ResolutionPrefs) : Bool :=
  if el.marker then false
  else
    match env.installedVersion el.name with
    | none => true
    | some v =>
      if prefs.upgrade then true
      else if prefs.forceReinstall then true
      else if el.specOk v then false
      else true

/-- Whether the registry's fetch specification for `n` has a matching
fetcher: it must be a source specification and its kind must be registered. -/
def hasFetcher (env : Env) (n : Name) : Bool :=
  (env.registry n).fetcher.isSource && fetchersHave (env.registry n).fetcher.type_

/-- The output directory a clone of `nm` lands in (`outDir`, with the
specification's optional subdirectory appended). -/
def cloneOutDir (env : Env) (targetDir : String) (nm : Name) : String :=
  if (env.registry nm).fetcher.subDir ≠ "" then
    targetDir ++ "/" ++ nm ++ "/" ++ (env.registry nm).fetcher.subDir
  else targetDir ++ "/" ++ nm

/-- Project the success value of a sub-round fetch. -/
def runSubOK (x : Except PipelineError ResolutionSubRound) : ResolutionSubRound :=
  match x with
  | Except.ok y => y
  | Except.error _ => (ResolutionRound.new).build

/-- Names resolved in either lane of a round. -/
def roundResolvedNames (r : ResolutionRound) : List Name :=
  dKeys r.build.resolved ++ dKeys r.pkgs.resolved

/-- Fetch scenario: a fetchable package and a system-provided package. -/
def envSys : Env :=
  { registry := fun n =>
      if n = "sys" then
        { name := "sys"
          fetcher := { isSource := true, type_ := Source.system, repo := "", subDir := "" } }
      else { name := n, fetcher := gitSpec }
    installedVersion := fun _ => none
    extractMetadata := fun _ => { name := "a", buildDeps := [], deps := [] }
    unpin := id
    canonName := id }

def c5sub : ResolutionSubRound :=
  { (ResolutionRound.new).pkgs with toFetch := [("a", 1), ("sys", 1)] }

/-! ### `getInstalledPackageDistribution` (ipi/tools/distlib.py) -/

/-- Error raised when both canonicalization variants are installed
(`RuntimeError("Both underscore and dash dists are present, refuse to
guess", dDist, uDist)`). -/
inductive DistLookupError
  | bothPresent (dDist uDist : String)
deriving DecidableEq

/-- External collaborators of the installed-distribution lookup.
`canonMulti` is modelled from the spec: `canonicalizePackageNameMulti`
(module `ipi.utils`, not among the sources) produces the dash-form and the
underscore-form canonicalization of a name.  `getDistribution` is
`DistributionPath.get_distribution` over the install database. -/
structure DistEnv where
  canonMulti : String → String × String
  getDistribution : String → Option String

def getInstalledPackageDistribution (env : DistEnv) (name : String) :
    Except DistLookupError (Option String) :=
  let dashName := (env.canonMulti name).1
  let underscoreName := (env.canonMulti name).2
  if dashName ≠ underscoreName then
    match env.getDistribution dashName, env.getDistribution underscoreName with
    | some dDist, some uDist => Except.error (DistLookupError.bothPresent dDist uDist)
    | some dDist, none => Except.ok (some dDist)
    | none, uDist => Except.ok uDist
  else
    Except.ok (env.getDistribution dashName)

/-- Concrete witness environment: `x` canonicalizes to differing variants
`a` and `a_`, and only `a` is installed. -/
def distEnvW : DistEnv :=
  { canonMulti := fun _ => ("a", "a_")
    getDistribution := fun s => if s = "a" then some "distA" else none }

/-! ## Theorems -/

/-- C1: with `moveToThis = true` (build lane) and `x` at stage Fetched in
the package lane, `appendNewDeps` leaves `x` in *no* collection of either
lane and instead re-enqueues it in the successor's `toFetch`: the entry is
removed from the package lane but never relocated into the build lane, so
the claimed promotion does not happen.  (`c1res` is the triple
(self, other, successor) after the call.) -/
theorem C1_promotion_counterexample :
    c1buildLane.moveToThis = true ∧
    dGet c1pkgsLane.fetched "x" = some (PVal.path "src/x") ∧
    dKeys c1res.1.fetched = [] ∧
    dKeys c1res.1.resolved = [] ∧
    dKeys c1res.2.1.fetched = [] ∧
    dKeys c1res.2.1.resolved = [] ∧
    c1res.2.2.toFetch = [("x", 1)] := by
  refine ⟨rfl, by decide, by decide, by decide, by decide, by decide, by decide⟩

/-- C2: calling a round whose build lane fetches and resolves `t` produces
a successor whose *build* lane `resolved` is empty — `t` lands in the
successor's *package* lane `resolved` instead (the stale `successorSubRound`
binding of `_resolveDeps`), so the build lane's resolved set is not a subset
of the successor build lane's resolved set. -/
theorem C2_propagation_counterexample :
    exceptIsOk c2e = true ∧
    dKeys c2s.1.build.resolved = ["t"] ∧
    dKeys c2s.2.1.build.resolved = [] ∧
    dKeys c2s.2.1.pkgs.resolved = ["t"] := by
  refine ⟨by decide, by decide, by decide, by decide⟩

/-- C3: requesting `A` and `B`, where `A` has build dependency `T` and `T`
has build dependency `B`: `B` is cloned in round 1 via the package lane and
cloned *again* in round 3 via the build lane (both rounds start with an
empty `fetched`, so each presence witnesses a distinct clone), violating
at-most-once fetching; and at the fixed point the final round resolves only
`B` — `A` appears in no lane's resolved set even though it was fetched, so
processed names do not appear in exactly one lane's resolved set. -/
theorem C3_at_most_once_counterexample :
    exceptIsOk c3e1 = true ∧ exceptIsOk c3e2 = true ∧ exceptIsOk c3e3 = true ∧
    dKeys c3r1.pkgs.fetched = [] ∧
    dHas c3s1.1.pkgs.fetched "B" = true ∧
    dKeys c3s2.2.1.build.fetched = [] ∧
    dHas c3s3.1.build.fetched "B" = true ∧
    c3s3.2.1.toBool = false ∧
    dHas c3s1.1.pkgs.fetched "A" = true ∧
    dKeys c3s3.2.1.build.resolved = [] ∧
    dKeys c3s3.2.1.pkgs.resolved = ["B"] ∧
    exceptIsOk c3run = true ∧
    dlInstalled c3run = [PVal.path "src/B"] := by
  refine ⟨by decide, by decide, by decide, by decide, by decide, by decide, by decide,
    by decide, by decide, by decide, by decide, by decide, by decide⟩

/-- C7 (counterexample): when the convergence loop raises (here: a fetch
specification of an unknown non-system kind), `PackagesInstaller.__call__`
never reaches `self.sourcesDir.cleanup()` — the cleanup flag is false on
this exit path, refuting "released on every exit path". -/
theorem C7_cleanup_skipped_on_error_path :
    installerCall envUnknown 5 prefs0 ["A"] "src"
      = (Except.error PipelineError.notImplemented, false) := by
  rfl

/-- C7 (amended): the scratch-directory cleanup call runs exactly on the
normal exit path — it is reached if and only if
`downloadPackagesAndTheirDependencies` returns without raising. -/
theorem C7_cleanup_iff_normal_exit :
    ∀ (env : Env) (fuel : Nat) (prefs : ResolutionPrefs) (names : List Name)
      (sourcesDirName : String),
      (installerCall env fuel prefs names sourcesDirName).2
        = exceptIsOk (installerCall env fuel prefs names sourcesDirName).1 := by
  intro env fuel prefs names sourcesDirName
  unfold installerCall
  cases downloadPackagesAndTheirDependencies env fuel prefs names sourcesDirName <;> rfl

/-- C4: `isReInstallationNeeded` implements exactly the case analysis of the
specification (marker ⇒ false; nothing installed ⇒ true; installed and no
upgrade ⇒ forceReinstall, else skip iff the installed version satisfies the
specifier; installed and upgrade ⇒ true). -/
theorem C4_isReInstallationNeeded_matches_spec :
    ∀ (s : ResolutionSubRound) (env : Env) (el : Requirement)
      (prefs : ResolutionPrefs),
      s.isReInstallationNeeded env el prefs = isReInstallationNeededSpec env el prefs := by
  intro s env el prefs
  unfold ResolutionSubRound.isReInstallationNeeded isReInstallationNeededSpec
  cases hm : el.marker <;>
    cases hv : env.installedVersion el.name <;>
      cases hu : prefs.upgrade <;>
        simp [hm, hv, hu]

/-- The convergence loop passes every round `prefs.clone(upgrade=False)`, so
the caller's `upgrade` flag is invisible to it. -/
theorem downloadLoop_upgrade_irrelevant (env : Env) (sourcesDir : String)
    (p : ResolutionPrefs) (b : Bool) :
    ∀ (fuel : Nat) (rr : ResolutionRound) (dirs : List (Name × PVal)),
      downloadLoop env { p with upgrade := b } sourcesDir fuel rr dirs
        = downloadLoop env p sourcesDir fuel rr dirs := by
  intro fuel
  induction fuel with
  | zero => intro rr dirs; rfl
  | succ n ih =>
    intro rr dirs
    have hc : ({ p with upgrade := b } : ResolutionPrefs).clone (some false) none none
        = p.clone (some false) none none := rfl
    simp only [downloadLoop, hc]
    cases rr.toBool
    · rfl
    · simp only [if_true]
      cases rr.call env (p.clone (some false) none none) dirs sourcesDir with
      | error e => rfl
      | ok res => exact ih res.2.1 res.2.2

/-- C9: the whole resolution process is independent of the caller's
`upgrade` preference — running with `upgrade` overridden to any value
produces exactly the same rounds, install directories and install actions. -/
theorem C9_upgrade_flag_never_influences_resolution :
    ∀ (env : Env) (fuel : Nat) (prefs : ResolutionPrefs) (b : Bool)
      (names : List Name) (sourcesDir : String),
      downloadPackagesAndTheirDependencies env fuel { prefs with upgrade := b } names sourcesDir
        = downloadPackagesAndTheirDependencies env fuel prefs names sourcesDir := by
  intro env fuel prefs b names sourcesDir
  unfold downloadPackagesAndTheirDependencies
  simp only [downloadLoop_upgrade_irrelevant env sourcesDir prefs b]

/-! ### Dictionary lemmas -/

theorem dGet_dSet_self {V : Type} (d : List (Name × V)) (k : Name) (v : V) :
    dGet (dSet d k v) k = some v := by
  induction d with
  | nil => simp [dSet, dGet]
  | cons h t ih =>
    obtain ⟨k0, v0⟩ := h
    by_cases hk : k0 = k
    · subst hk; simp [dSet, dGet]
    · simp [dSet, dGet, hk, ih]

theorem dGet_dSet_ne {V : Type} (d : List (Name × V)) (k k' : Name) (v : V)
    (h : k ≠ k') : dGet (dSet d k v) k' = dGet d k' := by
  induction d with
  | nil => simp [dSet, dGet, h]
  | cons hd t ih =>
    obtain ⟨k0, v0⟩ := hd
    by_cases hk : k0 = k
    · subst hk; simp [dSet, dGet, h]
    · simp [dSet, dGet, hk, ih]

theorem dGet_isSome_iff_mem {V : Type} (d : List (Name × V)) (k : Name) :
    (dGet d k).isSome = true ↔ k ∈ dKeys d := by
  induction d with
  | nil => simp [dGet, dKeys]
  | cons hd t ih =>
    obtain ⟨k0, v0⟩ := hd
    by_cases hk : k0 = k
    · subst hk; simp [dGet, dKeys]
    · simp [dGet, dKeys, hk, ih, Ne.symm hk]

theorem dHas_iff {V : Type} (d : List (Name × V)) (k : Name) :
    dHas d k = true ↔ k ∈ dKeys d :=
  dGet_isSome_iff_mem d k

theorem dKeys_dSet {V : Type} (d : List (Name × V)) (k : Name) (v : V) :
    dKeys (dSet d k v) = if k ∈ dKeys d then dKeys d else dKeys d ++ [k] := by
  induction d with
  | nil => simp [dSet, dKeys]
  | cons hd t ih =>
    obtain ⟨k0, v0⟩ := hd
    by_cases hk : k0 = k
    · subst hk; simp [dSet, dKeys]
    · have h1 : dKeys (dSet ((k0, v0) :: t) k v) = k0 :: dKeys (dSet t k v) := by
        simp [dSet, dKeys, hk]
      have h2 : dKeys ((k0, v0) :: t) = k0 :: dKeys t := by simp [dKeys]
      rw [h1, ih, h2]
      by_cases hm : k ∈ dKeys t
      · rw [if_pos hm, if_pos (List.mem_cons_of_mem k0 hm)]
      · have hnot : k ∉ k0 :: dKeys t := by
          intro hc
          rcases List.mem_cons.mp hc with hc | hc
          · exact hk hc.symm
          · exact hm hc
        rw [if_neg hm, if_neg hnot, List.cons_append]

theorem mem_dKeys_dSet_of_mem {V : Type} {d : List (Name × V)} {k' : Name}
    (h : k' ∈ dKeys d) (k : Name) (v : V) : k' ∈ dKeys (dSet d k v) := by
  rw [dKeys_dSet]
  split
  · exact h
  · exact List.mem_append_left _ h

theorem self_mem_dKeys_dSet {V : Type} (d : List (Name × V)) (k : Name) (v : V) :
    k ∈ dKeys (dSet d k v) := by
  rw [dKeys_dSet]
  split
  · assumption
  · simp

theorem mem_dKeys_dSet_cases {V : Type} {d : List (Name × V)} {k k' : Name} {v : V}
    (h : k' ∈ dKeys (dSet d k v)) : k' ∈ dKeys d ∨ k' = k := by
  rw [dKeys_dSet] at h
  split at h
  · exact Or.inl h
  · rcases List.mem_append.mp h with h1 | h1
    · exact Or.inl h1
    · simp at h1; exact Or.inr h1

theorem dKeys_dDel_subset {V : Type} (d : List (Name × V)) (k : Name) :
    ∀ n ∈ dKeys (dDel d k), n ∈ dKeys d := by
  induction d with
  | nil => simp [dDel]
  | cons hd t ih =>
    obtain ⟨k0, v0⟩ := hd
    intro n hn
    by_cases hk : k0 = k
    · simp only [dDel, if_pos hk] at hn
      have h2 : dKeys ((k0, v0) :: t) = k0 :: dKeys t := by simp [dKeys]
      rw [h2]
      exact List.mem_cons_of_mem k0 hn
    · simp only [dDel, if_neg hk] at hn
      simp only [dKeys, List.map_cons, List.mem_cons] at hn ⊢
      rcases hn with h1 | h1
      · exact Or.inl h1
      · exact Or.inr (ih n h1)

theorem dDel_dSet {V : Type} (d : List (Name × V)) (k : Name) (v : V) :
    dDel (dSet d k v) k = dDel d k := by
  induction d with
  | nil => simp [dSet, dDel]
  | cons hd t ih =>
    obtain ⟨k0, v0⟩ := hd
    by_cases hk : k0 = k
    · subst hk; simp [dSet, dDel]
    · simp [dSet, dDel, hk, ih]

theorem mem_dKeys_dUpdate_left {V : Type} (b : List (Name × V)) :
    ∀ (a : List (Name × V)) (k : Name), k ∈ dKeys a → k ∈ dKeys (dUpdate a b) := by
  induction b with
  | nil => intro a k h; exact h
  | cons hd t ih =>
    obtain ⟨k1, v1⟩ := hd
    intro a k h
    exact ih (dSet a k1 v1) k (mem_dKeys_dSet_of_mem h k1 v1)

theorem mem_dKeys_dUpdate_right {V : Type} (b : List (Name × V)) :
    ∀ (a : List (Name × V)) (k : Name), k ∈ dKeys b → k ∈ dKeys (dUpdate a b) := by
  induction b with
  | nil => intro a k h; simp [dKeys] at h
  | cons hd t ih =>
    obtain ⟨k1, v1⟩ := hd
    intro a k h
    simp only [dKeys, List.map_cons, List.mem_cons] at h
    rcases h with h | h
    · subst h
      exact mem_dKeys_dUpdate_left t (dSet a k v1) k (self_mem_dKeys_dSet a k v1)
    · exact ih (dSet a k1 v1) k h

theorem mem_dKeys_dUpdate_cases {V : Type} (b : List (Name × V)) :
    ∀ (a : List (Name × V)) (k : Name),
      k ∈ dKeys (dUpdate a b) → k ∈ dKeys a ∨ k ∈ dKeys b := by
  induction b with
  | nil => intro a k h; exact Or.inl h
  | cons hd t ih =>
    obtain ⟨k1, v1⟩ := hd
    intro a k h
    rcases ih (dSet a k1 v1) k h with h1 | h1
    · rcases mem_dKeys_dSet_cases h1 with h2 | h2
      · exact Or.inl h2
      · subst h2; simp [dKeys]
    · simp only [dKeys, List.map_cons, List.mem_cons]
      exact Or.inr (Or.inr h1)

theorem dGet_dUpdate_not_mem {V : Type} (b : List (Name × V)) :
    ∀ (a : List (Name × V)) (k : Name), k ∉ dKeys b →
      dGet (dUpdate a b) k = dGet a k := by
  induction b with
  | nil => intro a k _; rfl
  | cons hd t ih =>
    obtain ⟨k1, v1⟩ := hd
    intro a k h
    simp only [dKeys, List.map_cons, List.mem_cons, not_or] at h
    rw [show dUpdate a ((k1, v1) :: t) = dUpdate (dSet a k1 v1) t from rfl,
      ih (dSet a k1 v1) k h.2, dGet_dSet_ne a k1 k v1 (fun he => h.1 he.symm)]

theorem dGet_dUpdate_of_nodup {V : Type} (b : List (Name × V)) :
    ∀ (a : List (Name × V)) (k : Name) (v : V), (dKeys b).Nodup → (k, v) ∈ b →
      dGet (dUpdate a b) k = some v := by
  induction b with
  | nil => intro a k v _ h; simp at h
  | cons hd t ih =>
    obtain ⟨k1, v1⟩ := hd
    intro a k v hnd hm
    have hnd' : k1 ∉ dKeys t ∧ (dKeys t).Nodup := by
      simpa [dKeys] using hnd
    rcases List.mem_cons.mp hm with h | h
    · have hk : k = k1 := congrArg Prod.fst h
      have hv : v = v1 := congrArg Prod.snd h
      subst hk; subst hv
      rw [show dUpdate a ((k, v) :: t) = dUpdate (dSet a k v) t from rfl,
        dGet_dUpdate_not_mem t (dSet a k v) k hnd'.1, dGet_dSet_self]
    · exact ih (dSet a k1 v1) k v hnd'.2 h

theorem dKeys_dSet_nodup {V : Type} (d : List (Name × V)) (k : Name) (v : V)
    (h : (dKeys d).Nodup) : (dKeys (dSet d k v)).Nodup := by
  rw [dKeys_dSet]
  split
  · exact h
  · simp only [List.nodup_append, List.nodup_singleton]
    refine ⟨h, trivial, ?_⟩
    intro x hx
    simp only [List.mem_singleton]
    intro he
    subst he
    exact absurd hx (by assumption)

/-! ### Characterizing `clonePackagesRepos` -/

theorem clonePackagesReposGo_cons (env : Env) (targetDir : String) (nm : Name)
    (rest : List Name) (res : List (Name × PVal)) (ign : List Pkg) :
    clonePackagesReposGo env targetDir (nm :: rest) res ign
      = if hasFetcher env nm = true then
          clonePackagesReposGo env targetDir rest
            (dSet res nm (PVal.path (cloneOutDir env targetDir nm))) ign
        else
          clonePackagesReposGo env targetDir rest res (ign ++ [env.registry nm]) := by
  cases hx : (env.registry nm).fetcher.isSource <;>
    cases hxf : fetchersHave (env.registry nm).fetcher.type_ <;>
      simp [clonePackagesReposGo, hasFetcher, cloneOutDir, hx, hxf]

theorem clonePackagesReposGo_ignored_mem (env : Env) (targetDir : String) :
    ∀ (names : List Name) (res : List (Name × PVal)) (ign : List Pkg) (p : Pkg),
      p ∈ (clonePackagesReposGo env targetDir names res ign).2 ↔
        p ∈ ign ∨ ∃ n, n ∈ names ∧ env.registry n = p ∧ hasFetcher env n = false := by
  intro names
  induction names with
  | nil =>
    intro res ign p
    simp [clonePackagesReposGo]
  | cons nm rest ih =>
    intro res ign p
    rw [clonePackagesReposGo_cons]
    by_cases hgood : hasFetcher env nm = true
    · rw [if_pos hgood, ih]
      constructor
      · rintro (h | ⟨n, hn, hr, hb⟩)
        · exact Or.inl h
        · exact Or.inr ⟨n, List.mem_cons_of_mem nm hn, hr, hb⟩
      · rintro (h | ⟨n, hn, hr, hb⟩)
        · exact Or.inl h
        · rcases List.mem_cons.mp hn with h1 | h1
          · subst h1; rw [hgood] at hb; cases hb
          · exact Or.inr ⟨n, h1, hr, hb⟩
    · have hbad : hasFetcher env nm = false := by
        cases hx : hasFetcher env nm
        · rfl
        · exact absurd hx hgood
      rw [if_neg hgood, ih]
      constructor
      · rintro (h | ⟨n, hn, hr, hb⟩)
        · rcases List.mem_append.mp h with h1 | h1
          · exact Or.inl h1
          · have h2 : p = env.registry nm := by simpa using h1
            exact Or.inr ⟨nm, List.mem_cons_self nm rest, h2.symm, hbad⟩
        · exact Or.inr ⟨n, List.mem_cons_of_mem nm hn, hr, hb⟩
      · rintro (h | ⟨n, hn, hr, hb⟩)
        · exact Or.inl (List.mem_append_left _ h)
        · rcases List.mem_cons.mp hn with h1 | h1
          · subst h1
            exact Or.inl (List.mem_append_right _ (by simp [hr]))
          · exact Or.inr ⟨n, h1, hr, hb⟩

theorem clonePackagesReposGo_res_not_mem (env : Env) (targetDir : String) :
    ∀ (names : List Name) (res : List (Name × PVal)) (ign : List Pkg) (n : Name),
      hasFetcher env n = false → n ∉ dKeys res →
      n ∉ dKeys (clonePackagesReposGo env targetDir names res ign).1 := by
  intro names
  induction names with
  | nil =>
    intro res ign n _ hnm
    simpa [clonePackagesReposGo] using hnm
  | cons nm rest ih =>
    intro res ign n hbad hnm
    rw [clonePackagesReposGo_cons]
    by_cases hgood : hasFetcher env nm = true
    · rw [if_pos hgood]
      refine ih _ _ n hbad ?_
      intro hc
      rcases mem_dKeys_dSet_cases hc with h1 | h1
      · exact hnm h1
      · subst h1
        rw [hgood] at hbad
        cases hbad
    · rw [if_neg hgood]
      exact ih _ _ n hbad hnm

theorem clonePackagesReposGo_res_nodup (env : Env) (targetDir : String) :
    ∀ (names : List Name) (res : List (Name × PVal)) (ign : List Pkg),
      (dKeys res).Nodup →
      (dKeys (clonePackagesReposGo env targetDir names res ign).1).Nodup := by
  intro names
  induction names with
  | nil =>
    intro res ign h
    simpa [clonePackagesReposGo] using h
  | cons nm rest ih =>
    intro res ign h
    rw [clonePackagesReposGo_cons]
    by_cases hgood : hasFetcher env nm = true
    · rw [if_pos hgood]
      exact ih _ _ (dKeys_dSet_nodup res nm _ h)
    · rw [if_neg hgood]
      exact ih _ _ h

/-- C5: whenever `fetch` returns without raising, `toFetch` is empty
afterwards, every cloned name is in `fetched` mapped to its source
directory, and every pending name whose fetch specification is of the
"system" kind was not cloned and ends up in `ignored` (under the registry
entry's name). -/
theorem C5_fetch_postconditions :
    ∀ (env : Env) (s : ResolutionSubRound) (dirs : List (Name × PVal))
      (sourcesDir : String) (s' : ResolutionSubRound),
      s.fetch env dirs sourcesDir = Except.ok s' →
      s'.toFetch = [] ∧
      (∀ n d, (n, d) ∈ (clonePackagesRepos env sourcesDir (dKeys s.toFetch)).1 →
        dGet s'.fetched n = some d) ∧
      (∀ n, n ∈ dKeys s.toFetch → (env.registry n).fetcher.type_ = Source.system →
        n ∉ dKeys (clonePackagesRepos env sourcesDir (dKeys s.toFetch)).1 ∧
        (env.registry n).name ∈ dKeys s'.ignored) := by
  intro env s dirs sourcesDir s' h
  simp only [ResolutionSubRound.fetch] at h
  by_cases hc : (clonePackagesRepos env sourcesDir (dKeys s.toFetch)).2.any
      (fun p => decide (p.fetcher.type_ ≠ Source.system)) = true
  · rw [if_pos hc] at h
    exact Except.noConfusion h
  · rw [if_neg hc] at h
    injection h with h2
    subst h2
    refine ⟨rfl, ?_, ?_⟩
    · intro n d hm
      exact dGet_dUpdate_of_nodup _ s.fetched n d
        (clonePackagesReposGo_res_nodup env sourcesDir (dKeys s.toFetch) [] []
          (by simp [dKeys])) hm
    · intro n hn htype
      have hbad : hasFetcher env n = false := by
        simp [hasFetcher, htype, fetchersHave]
      refine ⟨clonePackagesReposGo_res_not_mem env sourcesDir (dKeys s.toFetch) [] [] n
          hbad (by simp [dKeys]), ?_⟩
      have hpmem : env.registry n ∈ (clonePackagesRepos env sourcesDir (dKeys s.toFetch)).2 :=
        (clonePackagesReposGo_ignored_mem env sourcesDir (dKeys s.toFetch) [] []
          (env.registry n)).mpr (Or.inr ⟨n, hn, rfl, hbad⟩)
      have hkey : (env.registry n).name ∈
          dKeys ((clonePackagesRepos env sourcesDir (dKeys s.toFetch)).2.map
            (fun el => (el.name, el))) := by
        have h3 : ((env.registry n).name, env.registry n) ∈
            (clonePackagesRepos env sourcesDir (dKeys s.toFetch)).2.map
              (fun el => (el.name, el)) :=
          List.mem_map_of_mem _ hpmem
        unfold dKeys
        exact List.mem_map_of_mem Prod.fst h3
      exact mem_dKeys_dUpdate_right _ s.ignored _
        (mem_dKeys_dUpdate_right _ [] _ hkey)

/-- C5 witness: a fetchable package `a` and a system-provided package `sys`
pending in one sub-round. -/
theorem C5_fetch_postconditions_witness :
    dGet (runSubOK (c5sub.fetch envSys [] "src")).fetched "a" = some (PVal.path "src/a") ∧
    "sys" ∈ dKeys (runSubOK (c5sub.fetch envSys [] "src")).ignored := by
  have h := C5_fetch_postconditions envSys c5sub [] "src"
    (runSubOK (c5sub.fetch envSys [] "src")) (by rfl)
  exact ⟨h.2.1 "a" (PVal.path "src/a") (by decide), (h.2.2 "sys" (by decide) (by decide)).2⟩

/-- C6: `fetch` raises the fatal unimplemented-fetcher error if and only if
some pending name's fetch specification has no matching fetcher *and* its
kind is not the "system" kind; system-kind specifications (which also have
no fetcher) never trigger the error. -/
theorem C6_fetch_error_iff_unresolvable_nonsystem :
    ∀ (env : Env) (s : ResolutionSubRound) (dirs : List (Name × PVal))
      (sourcesDir : String),
      (∃ e, s.fetch env dirs sourcesDir = Except.error e) ↔
      (∃ n, n ∈ dKeys s.toFetch ∧ hasFetcher env n = false ∧
        (env.registry n).fetcher.type_ ≠ Source.system) := by
  intro env s dirs sourcesDir
  constructor
  · rintro ⟨e, he⟩
    simp only [ResolutionSubRound.fetch] at he
    by_cases hc : (clonePackagesRepos env sourcesDir (dKeys s.toFetch)).2.any
        (fun p => decide (p.fetcher.type_ ≠ Source.system)) = true
    · rw [List.any_eq_true] at hc
      obtain ⟨p, hp, hpt⟩ := hc
      have hpt' : p.fetcher.type_ ≠ Source.system := of_decide_eq_true hpt
      rcases (clonePackagesReposGo_ignored_mem env sourcesDir (dKeys s.toFetch) [] [] p).mp hp
        with h1 | ⟨n, hn, hr, hb⟩
      · simp at h1
      · refine ⟨n, hn, hb, ?_⟩
        rw [hr]
        exact hpt'
    · rw [if_neg hc] at he
      exact Except.noConfusion he
  · rintro ⟨n, hn, hb, hsys⟩
    refine ⟨PipelineError.notImplemented, ?_⟩
    simp only [ResolutionSubRound.fetch]
    have hmem : env.registry n ∈ (clonePackagesRepos env sourcesDir (dKeys s.toFetch)).2 :=
      (clonePackagesReposGo_ignored_mem env sourcesDir (dKeys s.toFetch) [] []
        (env.registry n)).mpr (Or.inr ⟨n, hn, rfl, hb⟩)
    have hany : (clonePackagesRepos env sourcesDir (dKeys s.toFetch)).2.any
        (fun p => decide (p.fetcher.type_ ≠ Source.system)) = true :=
      List.any_eq_true.mpr ⟨env.registry n, hmem, decide_eq_true hsys⟩
    rw [if_pos hany]

/-- C8: for a name whose dash-form and underscore-form canonicalizations
differ, the installed-distribution lookup raises the identity-conflict
error when both variants are installed, and returns the single installed
variant (or none) otherwise. -/
theorem C8_identity_conflict_fails_loudly :
    ∀ (env : DistEnv) (name : String),
      (env.canonMulti name).1 ≠ (env.canonMulti name).2 →
      (∀ dD uD, env.getDistribution (env.canonMulti name).1 = some dD →
        env.getDistribution (env.canonMulti name).2 = some uD →
        getInstalledPackageDistribution env name
          = Except.error (DistLookupError.bothPresent dD uD)) ∧
      (env.getDistribution (env.canonMulti name).1 = none →
        getInstalledPackageDistribution env name
          = Except.ok (env.getDistribution (env.canonMulti name).2)) ∧
      (env.getDistribution (env.canonMulti name).2 = none →
        getInstalledPackageDistribution env name
          = Except.ok (env.getDistribution (env.canonMulti name).1)) := by
  intro env name hne
  refine ⟨?_, ?_, ?_⟩
  · intro dD uD hd hu
    simp only [getInstalledPackageDistribution, if_pos hne, hd, hu]
  · intro hd
    simp only [getInstalledPackageDistribution, if_pos hne, hd]
  · intro hu
    simp only [getInstalledPackageDistribution, if_pos hne, hu]
    cases hd : env.getDistribution (env.canonMulti name).1 <;> simp [hd]

/-- C8 witness: `x` canonicalizes to differing `a`/`a_`, only `a` is
installed: the lookup returns that distribution without raising. -/
theorem C8_identity_conflict_witness :
    getInstalledPackageDistribution distEnvW "x" = Except.ok (some "distA") := by
  have h := C8_identity_conflict_fails_loudly distEnvW "x" (by decide)
  rw [h.2.2 (by decide)]
  rfl

/-! ### Shape lemmas towards the installDirs invariant -/

/-- The net effect of the promotion block on the other lane: whatever stage
collection is hit, only `fetched`/`resolved` change and their key sets only
shrink. -/
theorem promoteNet_shape (other : ResolutionSubRound)
    (stage : ResolutionSubRoundPipelineStage) (n : Name) :
    ∃ f r,
      other.stageToCollectionSet stage
          (dDel (dSet (other.stageToCollection stage) n PVal.one) n)
        = { other with fetched := f, resolved := r } ∧
      (∀ m, m ∈ dKeys f → m ∈ dKeys other.fetched) ∧
      (∀ m, m ∈ dKeys r → m ∈ dKeys other.resolved) := by
  cases stage with
  | fetched =>
    refine ⟨dDel (dSet other.fetched n PVal.one) n, other.resolved, rfl, ?_, fun m hm => hm⟩
    intro m hm
    rw [dDel_dSet] at hm
    exact dKeys_dDel_subset _ _ m hm
  | depsResolved =>
    refine ⟨other.fetched, dDel (dSet other.resolved n PVal.one) n, rfl, fun m hm => hm, ?_⟩
    intro m hm
    rw [dDel_dSet] at hm
    exact dKeys_dDel_subset _ _ m hm
  | notResolved =>
    exact ⟨other.fetched, other.resolved, rfl, fun m hm => hm, fun m hm => hm⟩
  | built =>
    exact ⟨other.fetched, other.resolved, rfl, fun m hm => hm, fun m hm => hm⟩
  | installed =>
    exact ⟨other.fetched, other.resolved, rfl, fun m hm => hm, fun m hm => hm⟩

/-- One `appendNewDeps` iteration: `self` is returned unchanged, the other
lane changes only its `fetched`/`resolved` (keys shrinking; unchanged
entirely when `self.moveToThis` is false), and the successor changes only
its `toFetch`. -/
theorem appendNewDepsStep_shape (self : ResolutionSubRound) (env : Env)
    (prefs : ResolutionPrefs) (other succ : ResolutionSubRound) (el : Requirement) :
    ∃ f r t,
      self.appendNewDepsStep env prefs other succ el
        = (self, { other with fetched := f, resolved := r }, { succ with toFetch := t }) ∧
      (∀ n, n ∈ dKeys f → n ∈ dKeys other.fetched) ∧
      (∀ n, n ∈ dKeys r → n ∈ dKeys other.resolved) ∧
      (self.moveToThis = false →
        ({ other with fetched := f, resolved := r } : ResolutionSubRound) = other) := by
  simp only [ResolutionSubRound.appendNewDepsStep]
  by_cases h1 : dHas self.ignored el.name = true
  · rw [if_pos h1]
    exact ⟨other.fetched, other.resolved, succ.toFetch, rfl,
      fun _ h => h, fun _ h => h, fun _ => rfl⟩
  · rw [if_neg h1]
    by_cases h2 : (!self.isReInstallationNeeded env el prefs) = true
    · rw [if_pos h2]
      exact ⟨other.fetched, other.resolved, succ.toFetch, rfl,
        fun _ h => h, fun _ h => h, fun _ => rfl⟩
    · rw [if_neg h2]
      by_cases h3 : other.isAlreadyBeingProcessed el.name
          ≠ ResolutionSubRoundPipelineStage.notResolved
      · rw [if_pos h3]
        by_cases h4 : self.moveToThis = true
        · rw [if_pos h4]
          obtain ⟨f, r, heq, hf, hr⟩ :=
            promoteNet_shape other (other.isAlreadyBeingProcessed el.name) el.name
          rw [heq]
          by_cases h5 : self.isAlreadyBeingProcessed el.name
              ≠ ResolutionSubRoundPipelineStage.notResolved
          · rw [if_pos h5]
            exact ⟨f, r, succ.toFetch, rfl, hf, hr,
              fun hmv => absurd h4 (by rw [hmv]; simp)⟩
          · rw [if_neg h5]
            exact ⟨f, r, dSet succ.toFetch el.name 1, rfl, hf, hr,
              fun hmv => absurd h4 (by rw [hmv]; simp)⟩
        · rw [if_neg h4]
          by_cases h5 : self.isAlreadyBeingProcessed el.name
              ≠ ResolutionSubRoundPipelineStage.notResolved
          · rw [if_pos h5]
            exact ⟨other.fetched, other.resolved, succ.toFetch, rfl,
              fun _ h => h, fun _ h => h, fun _ => rfl⟩
          · rw [if_neg h5]
            exact ⟨other.fetched, other.resolved, dSet succ.toFetch el.name 1, rfl,
              fun _ h => h, fun _ h => h, fun _ => rfl⟩
      · rw [if_neg h3]
        by_cases h5 : self.isAlreadyBeingProcessed el.name
            ≠ ResolutionSubRoundPipelineStage.notResolved
        · rw [if_pos h5]
          exact ⟨other.fetched, other.resolved, succ.toFetch, rfl,
            fun _ h => h, fun _ h => h, fun _ => rfl⟩
        · rw [if_neg h5]
          exact ⟨other.fetched, other.resolved, dSet succ.toFetch el.name 1, rfl,
            fun _ h => h, fun _ h => h, fun _ => rfl⟩

/-- `appendNewDeps` over a whole requirement list: same shape as a single
step. -/
theorem appendNewDeps_shape (env : Env) (prefs : ResolutionPrefs) :
    ∀ (srcList : List Requirement) (self other succ : ResolutionSubRound),
      ∃ f r t,
        self.appendNewDeps env prefs srcList other succ
          = (self, { other with fetched := f, resolved := r }, { succ with toFetch := t }) ∧
        (∀ n, n ∈ dKeys f → n ∈ dKeys other.fetched) ∧
        (∀ n, n ∈ dKeys r → n ∈ dKeys other.resolved) ∧
        (self.moveToThis = false →
          ({ other with fetched := f, resolved := r } : ResolutionSubRound) = other) := by
  intro srcList
  induction srcList with
  | nil =>
    intro self other succ
    exact ⟨other.fetched, other.resolved, succ.toFetch, rfl,
      fun _ h => h, fun _ h => h, fun _ => rfl⟩
  | cons el rest ih =>
    intro self other succ
    obtain ⟨f1, r1, t1, heq1, hf1, hr1, hmv1⟩ :=
      appendNewDepsStep_shape self env prefs other succ el
    have hstep : self.appendNewDeps env prefs (el :: rest) other succ
        = self.appendNewDeps env prefs rest
            { other with fetched := f1, resolved := r1 } { succ with toFetch := t1 } := by
      unfold ResolutionSubRound.appendNewDeps
      rw [List.foldl_cons]
      congr 1
    obtain ⟨f2, r2, t2, heq2, hf2, hr2, hmv2⟩ :=
      ih self { other with fetched := f1, resolved := r1 } { succ with toFetch := t1 }
    refine ⟨f2, r2, t2, ?_, ?_, ?_, ?_⟩
    · rw [hstep, heq2]
    · intro n hn
      exact hf1 n (hf2 n hn)
    · intro n hn
      exact hr1 n (hr2 n hn)
    · intro hmv
      exact (hmv2 hmv).trans (hmv1 hmv)

/-- Processing one fetched name in `_resolveDeps`: the processed lane only
grows its `resolved` (by at most the processed name), the other lane only
loses keys from `fetched`/`resolved` (and is untouched when the processed
lane's `moveToThis` is false), the successor build lane only changes its
`toFetch`, and the successor package lane additionally absorbs the
processed lane's `resolved` into its own. -/
theorem resolveOneName_shape (env : Env) (prefs : ResolutionPrefs)
    (dg1 : ResolutionPrefs → Metadata → List Requirement) (patch1 : PrefsPatch)
    (dg2 : ResolutionPrefs → Metadata → List Requirement) (patch2 : PrefsPatch)
    (st : ResolveState) (nd : Name × PVal) :
    ∃ rv f r tB tP rvP,
      resolveOneName env prefs dg1 patch1 dg2 patch2 st nd
        = { thisSubRound := { st.thisSubRound with resolved := rv }
            otherSub := { st.otherSub with fetched := f, resolved := r }
            succBuild := { st.succBuild with toFetch := tB }
            succPkgs := { st.succPkgs with toFetch := tP, resolved := rvP } } ∧
      (∀ n, n ∈ dKeys rv → n ∈ dKeys st.thisSubRound.resolved ∨ n = nd.1) ∧
      (∀ n, n ∈ dKeys st.thisSubRound.resolved → n ∈ dKeys rv) ∧
      (∀ n, n ∈ dKeys f → n ∈ dKeys st.otherSub.fetched) ∧
      (∀ n, n ∈ dKeys r → n ∈ dKeys st.otherSub.resolved) ∧
      (st.thisSubRound.moveToThis = false →
        ({ st.otherSub with fetched := f, resolved := r } : ResolutionSubRound)
          = st.otherSub) ∧
      (∀ n, n ∈ dKeys rvP → n ∈ dKeys st.succPkgs.resolved ∨ n ∈ dKeys rv) := by
  simp only [resolveOneName]
  by_cases hig : (!dHas st.thisSubRound.ignored nd.1) = true
  · rw [if_pos hig]
    obtain ⟨f1, r1, t1, heq1, hf1, hr1, hmv1⟩ :=
      appendNewDeps_shape env (prefs.cloneWith patch1)
        ((dg1 prefs (env.extractMetadata nd.2)).map env.unpin)
        st.thisSubRound st.otherSub st.succBuild
    simp only [heq1]
    obtain ⟨f2, r2, t2, heq2, hf2, hr2, hmv2⟩ :=
      appendNewDeps_shape env (prefs.cloneWith patch2)
        ((dg2 prefs (env.extractMetadata nd.2)).map env.unpin)
        { st.thisSubRound with resolved := dSet st.thisSubRound.resolved nd.1 nd.2 }
        { st.otherSub with fetched := f1, resolved := r1 }
        st.succPkgs
    simp only [heq2]
    refine ⟨dSet (dSet st.thisSubRound.resolved nd.1 nd.2) nd.1 nd.2, f2, r2, t1, t2,
      dUpdate st.succPkgs.resolved (dSet (dSet st.thisSubRound.resolved nd.1 nd.2) nd.1 nd.2),
      rfl, ?_, ?_, ?_, ?_, ?_, ?_⟩
    · intro n hn
      rcases mem_dKeys_dSet_cases hn with h1 | h1
      · rcases mem_dKeys_dSet_cases h1 with h2 | h2
        · exact Or.inl h2
        · exact Or.inr h2
      · exact Or.inr h1
    · intro n hn
      exact mem_dKeys_dSet_of_mem (mem_dKeys_dSet_of_mem hn nd.1 nd.2) nd.1 nd.2
    · intro n hn
      exact hf1 n (hf2 n hn)
    · intro n hn
      exact hr1 n (hr2 n hn)
    · intro hmv
      exact (hmv2 hmv).trans (hmv1 hmv)
    · intro n hn
      exact mem_dKeys_dUpdate_cases _ _ n hn
  · rw [if_neg hig]
    refine ⟨st.thisSubRound.resolved, st.otherSub.fetched, st.otherSub.resolved,
      st.succBuild.toFetch, st.succPkgs.toFetch,
      dUpdate st.succPkgs.resolved st.thisSubRound.resolved,
      rfl, fun n hn => Or.inl hn, fun n hn => hn, fun n hn => hn, fun n hn => hn,
      fun _ => rfl, ?_⟩
    intro n hn
    exact mem_dKeys_dUpdate_cases _ _ n hn

/-- The whole per-lane loop of `_resolveDeps` (a fold of `resolveOneName`
over a list of fetched items): same shape, with the processed lane's
`resolved` growing by at most the processed names. -/
theorem resolveFold_shape (env : Env) (prefs : ResolutionPrefs)
    (dg1 : ResolutionPrefs → Metadata → List Requirement) (patch1 : PrefsPatch)
    (dg2 : ResolutionPrefs → Metadata → List Requirement) (patch2 : PrefsPatch) :
    ∀ (L : List (Name × PVal)) (st : ResolveState),
      ∃ rv f r tB tP rvP,
        L.foldl (resolveOneName env prefs dg1 patch1 dg2 patch2) st
          = { thisSubRound := { st.thisSubRound with resolved := rv }
              otherSub := { st.otherSub with fetched := f, resolved := r }
              succBuild := { st.succBuild with toFetch := tB }
              succPkgs := { st.succPkgs with toFetch := tP, resolved := rvP } } ∧
        (∀ n, n ∈ dKeys rv → n ∈ dKeys st.thisSubRound.resolved ∨ n ∈ L.map Prod.fst) ∧
        (∀ n, n ∈ dKeys st.thisSubRound.resolved → n ∈ dKeys rv) ∧
        (∀ n, n ∈ dKeys f → n ∈ dKeys st.otherSub.fetched) ∧
        (∀ n, n ∈ dKeys r → n ∈ dKeys st.otherSub.resolved) ∧
        (st.thisSubRound.moveToThis = false →
          ({ st.otherSub with fetched := f, resolved := r } : ResolutionSubRound)
            = st.otherSub) ∧
        (∀ n, n ∈ dKeys rvP → n ∈ dKeys st.succPkgs.resolved ∨ n ∈ dKeys rv) := by
  intro L
  induction L with
  | nil =>
    intro st
    exact ⟨st.thisSubRound.resolved, st.otherSub.fetched, st.otherSub.resolved,
      st.succBuild.toFetch, st.succPkgs.toFetch, st.succPkgs.resolved,
      rfl, fun n hn => Or.inl hn, fun n hn => hn, fun n hn => hn, fun n hn => hn,
      fun _ => rfl, fun n hn => Or.inl hn⟩
  | cons nd rest ih =>
    intro st
    rw [List.foldl_cons]
    obtain ⟨rv1, f1, r1, tB1, tP1, rvP1, heq1, hup1, hlo1, hf1, hr1, hmv1, hP1⟩ :=
      resolveOneName_shape env prefs dg1 patch1 dg2 patch2 st nd
    rw [heq1]
    obtain ⟨rv2, f2, r2, tB2, tP2, rvP2, heq2, hup2, hlo2, hf2, hr2, hmv2, hP2⟩ :=
      ih { thisSubRound := { st.thisSubRound with resolved := rv1 }
           otherSub := { st.otherSub with fetched := f1, resolved := r1 }
           succBuild := { st.succBuild with toFetch := tB1 }
           succPkgs := { st.succPkgs with toFetch := tP1, resolved := rvP1 } }
    rw [heq2]
    refine ⟨rv2, f2, r2, tB2, tP2, rvP2, rfl, ?_, ?_, ?_, ?_, ?_, ?_⟩
    · intro n hn
      rcases hup2 n hn with h1 | h1
      · rcases hup1 n h1 with h2 | h2
        · exact Or.inl h2
        · subst h2
          exact Or.inr (by rw [List.map_cons]; exact List.mem_cons_self _ _)
      · exact Or.inr (by rw [List.map_cons]; exact List.mem_cons_of_mem _ h1)
    · intro n hn
      exact hlo2 n (hlo1 n hn)
    · intro n hn
      exact hf1 n (hf2 n hn)
    · intro n hn
      exact hr1 n (hr2 n hn)
    · intro hmv
      exact (hmv2 hmv).trans (hmv1 hmv)
    · intro n hn
      rcases hP2 n hn with h1 | h1
      · rcases hP1 n h1 with h2 | h2
        · exact Or.inl h2
        · exact Or.inr (hlo2 n h2)
      · exact Or.inr h1

/-- `_resolveDeps` for a round whose package lane has `moveToThis = false`
(as every round constructed by the pipeline does): every name resolved in
the mutated round's build lane was previously resolved there or fetched
there; the build lane's `fetched` is untouched; every name resolved in the
package lane was previously resolved there or is among its (possibly
shrunken) fetched names; the successor build lane's resolved set is not
grown; and the successor package lane's resolved set only absorbs the two
mutated lanes' resolved names. -/
theorem resolveDeps_shape (env : Env) (prefs : ResolutionPrefs)
    (r successor : ResolutionRound) (hmv : r.pkgs.moveToThis = false) :
    (∀ n, n ∈ dKeys (r.resolveDeps env prefs successor).1.build.resolved →
       n ∈ dKeys r.build.resolved ∨ n ∈ dKeys r.build.fetched) ∧
    (r.resolveDeps env prefs successor).1.build.fetched = r.build.fetched ∧
    (∀ n, n ∈ dKeys (r.resolveDeps env prefs successor).1.pkgs.resolved →
       n ∈ dKeys r.pkgs.resolved ∨
       n ∈ dKeys (r.resolveDeps env prefs successor).1.pkgs.fetched) ∧
    (∀ n, n ∈ dKeys (r.resolveDeps env prefs successor).2.build.resolved →
       n ∈ dKeys successor.build.resolved) ∧
    (∀ n, n ∈ dKeys (r.resolveDeps env prefs successor).2.pkgs.resolved →
       n ∈ dKeys successor.pkgs.resolved ∨
       n ∈ dKeys (r.resolveDeps env prefs successor).1.build.resolved ∨
       n ∈ dKeys (r.resolveDeps env prefs successor).1.pkgs.resolved) := by
  simp only [ResolutionRound.resolveDeps, resolveLane]
  obtain ⟨rvA, fA, rA, tBA, tPA, rvPA, heqA, hupA, hloA, hfA, hrA, hmvA, hPA⟩ :=
    resolveFold_shape env prefs r.build.depsGetter r.build.prefsPatch
      r.pkgs.depsGetter r.pkgs.prefsPatch r.build.fetched
      { thisSubRound := r.build, otherSub := r.pkgs
        succBuild := successor.build, succPkgs := successor.pkgs }
  simp only [heqA]
  obtain ⟨rvB, fB, rB, tBB, tPB, rvPB, heqB, hupB, hloB, hfB, hrB, hmvB, hPB⟩ :=
    resolveFold_shape env prefs r.build.depsGetter r.build.prefsPatch
      r.pkgs.depsGetter r.pkgs.prefsPatch fA
      { thisSubRound := { r.pkgs with fetched := fA, resolved := rA }
        otherSub := { r.build with resolved := rvA }
        succBuild := { successor.build with toFetch := tBA }
        succPkgs := { successor.pkgs with toFetch := tPA, resolved := rvPA } }
  simp only [heqB]
  have hbuild : ({ ({ r.build with resolved := rvA } : ResolutionSubRound) with
      fetched := fB, resolved := rB } : ResolutionSubRound)
      = { r.build with resolved := rvA } := hmvB hmv
  have hbf : fB = r.build.fetched := congrArg ResolutionSubRound.fetched hbuild
  have hbr : rB = rvA := congrArg ResolutionSubRound.resolved hbuild
  refine ⟨?_, hbf, ?_, ?_, ?_⟩
  · intro n hn
    have hn' : n ∈ dKeys rvA := hbr ▸ hn
    rcases hupA n hn' with h1 | h1
    · exact Or.inl h1
    · exact Or.inr h1
  · intro n hn
    rcases hupB n hn with h1 | h1
    · exact Or.inl (hrA n h1)
    · exact Or.inr h1
  · intro n hn
    exact hn
  · intro n hn
    rcases hPB n hn with h1 | h1
    · rcases hPA n h1 with h2 | h2
      · exact Or.inl h2
      · exact Or.inr (Or.inl (hbr.symm ▸ h2))
    · exact Or.inr (Or.inr h1)

/-- A successful `fetch` only empties `toFetch` and replaces
`fetched`/`ignored`; every other field (in particular `resolved` and
`moveToThis`) is untouched. -/
theorem fetch_ok_shape (s : ResolutionSubRound) (env : Env)
    (dirs : List (Name × PVal)) (sourcesDir : String) (s' : ResolutionSubRound)
    (h : s.fetch env dirs sourcesDir = Except.ok s') :
    ∃ f ig, s' = { s with toFetch := [], fetched := f, ignored := ig } := by
  simp only [ResolutionSubRound.fetch] at h
  by_cases hc : (clonePackagesRepos env sourcesDir (dKeys s.toFetch)).2.any
      (fun p => decide (p.fetcher.type_ ≠ Source.system)) = true
  · rw [if_pos hc] at h
    exact Except.noConfusion h
  · rw [if_neg hc] at h
    injection h with h2
    exact ⟨_, _, h2.symm⟩

/-- C10: after any round call (on a round whose package lane has
`moveToThis = false`, as all pipeline rounds do) in which every previously
resolved name already has an install directory, every name in any lane's
resolved collection — of the mutated current round or of the returned next
round — is a key of the updated `installDirs`, so the post-convergence
build-and-install lookup of a resolved name's directory cannot miss. -/
theorem C10_resolved_names_in_installDirs :
    ∀ (env : Env) (prefs : ResolutionPrefs) (r : ResolutionRound)
      (dirs : List (Name × PVal)) (sourcesDir : String)
      (rMut next : ResolutionRound) (dirs' : List (Name × PVal)),
      r.pkgs.moveToThis = false →
      (∀ n, n ∈ roundResolvedNames r → n ∈ dKeys dirs) →
      r.call env prefs dirs sourcesDir = Except.ok (rMut, next, dirs') →
      ∀ n, n ∈ roundResolvedNames rMut ++ roundResolvedNames next → n ∈ dKeys dirs' := by
  intro env prefs r dirs sourcesDir rMut next dirs' hmv hpre hcall
  simp only [ResolutionRound.call] at hcall
  cases hb : r.build.fetch env dirs sourcesDir with
  | error e =>
    rw [hb] at hcall
    exact Except.noConfusion hcall
  | ok build1 =>
    rw [hb] at hcall
    cases hp : r.pkgs.fetch env dirs sourcesDir with
    | error e =>
      rw [hp] at hcall
      exact Except.noConfusion hcall
    | ok pkgs1 =>
      rw [hp] at hcall
      obtain ⟨fB1, igB1, hB1⟩ := fetch_ok_shape r.build env dirs sourcesDir build1 hb
      obtain ⟨fP1, igP1, hP1⟩ := fetch_ok_shape r.pkgs env dirs sourcesDir pkgs1 hp
      have hresb : build1.resolved = r.build.resolved := by rw [hB1]
      have hresp : pkgs1.resolved = r.pkgs.resolved := by rw [hP1]
      have hmv1 : pkgs1.moveToThis = false := by rw [hP1]; exact hmv
      injection hcall with h2
      have hA := congrArg (fun x => x.1) h2
      have hB := congrArg (fun x => x.2.1) h2
      have hC := congrArg (fun x => x.2.2) h2
      simp only at hA hB hC
      subst hA
      subst hB
      subst hC
      obtain ⟨s1, s2, s3, s4, s5⟩ :=
        resolveDeps_shape env prefs { build := build1, pkgs := pkgs1 }
          ResolutionRound.new hmv1
      have hcase1 : ∀ n,
          n ∈ dKeys (({ build := build1, pkgs := pkgs1 } : ResolutionRound).resolveDeps
            env prefs ResolutionRound.new).1.build.resolved →
          n ∈ dKeys (dUpdate (dUpdate dirs
            (({ build := build1, pkgs := pkgs1 } : ResolutionRound).resolveDeps
              env prefs ResolutionRound.new).1.build.fetched)
            (({ build := build1, pkgs := pkgs1 } : ResolutionRound).resolveDeps
              env prefs ResolutionRound.new).1.pkgs.fetched) := by
        intro n hn
        rcases s1 n hn with h3 | h3
        · have h4 : n ∈ dKeys r.build.resolved := hresb ▸ h3
          have hd : n ∈ dKeys dirs := hpre n (List.mem_append_left _ h4)
          exact mem_dKeys_dUpdate_left _ _ n (mem_dKeys_dUpdate_left _ _ n hd)
        · rw [← s2] at h3
          exact mem_dKeys_dUpdate_left _ _ n (mem_dKeys_dUpdate_right _ _ n h3)
      have hcase2 : ∀ n,
          n ∈ dKeys (({ build := build1, pkgs := pkgs1 } : ResolutionRound).resolveDeps
            env prefs ResolutionRound.new).1.pkgs.resolved →
          n ∈ dKeys (dUpdate (dUpdate dirs
            (({ build := build1, pkgs := pkgs1 } : ResolutionRound).resolveDeps
              env prefs ResolutionRound.new).1.build.fetched)
            (({ build := build1, pkgs := pkgs1 } : ResolutionRound).resolveDeps
              env prefs ResolutionRound.new).1.pkgs.fetched) := by
        intro n hn
        rcases s3 n hn with h3 | h3
        · have h4 : n ∈ dKeys r.pkgs.resolved := hresp ▸ h3
          have hd : n ∈ dKeys dirs := hpre n (List.mem_append_right _ h4)
          exact mem_dKeys_dUpdate_left _ _ n (mem_dKeys_dUpdate_left _ _ n hd)
        · exact mem_dKeys_dUpdate_right _ _ n h3
      intro n hn
      rcases List.mem_append.mp hn with hn1 | hn1
      · rcases List.mem_append.mp hn1 with hn2 | hn2
        · exact hcase1 n hn2
        · exact hcase2 n hn2
      · rcases List.mem_append.mp hn1 with hn2 | hn2
        · have h3 := s4 n hn2
          simp [ResolutionRound.new, dKeys] at h3
        · rcases s5 n hn2 with h3 | h3 | h3
          · simp [ResolutionRound.new, dKeys] at h3
          · exact hcase1 n h3
          · exact hcase2 n h3

/-- C10 witness: a seeded round resolving a single package `A`. -/
theorem C10_resolved_names_in_installDirs_witness :
    "A" ∈ dKeys (runRoundOK ((seedRound ["A"]).call envT prefs0 [] "src")).2.2 := by
  have h := C10_resolved_names_in_installDirs envT prefs0 (seedRound ["A"]) [] "src"
    (runRoundOK ((seedRound ["A"]).call envT prefs0 [] "src")).1
    (runRoundOK ((seedRound ["A"]).call envT prefs0 [] "src")).2.1
    (runRoundOK ((seedRound ["A"]).call envT prefs0 [] "src")).2.2
    (by rfl)
    (fun n hn => absurd
      ((show roundResolvedNames (seedRound ["A"]) = [] from rfl) ▸ hn)
      (List.not_mem_nil n))
    (by rfl)
  exact h "A" (by decide)

end Ipi


